import Mathlib

/-!
Verification of the microgrid formula engine.

The repository ships a thin Python binding (the package module re-exporting
`FormulaEngine` from a compiled backend) and its tests; the engine core
itself (lexer, parser, component extractor, evaluator, formula handle) is
not present as source, so it is modelled here from the specification,
section by section.  Numeric values are modelled by `ℚ`: the specification
uses a single floating-point representation, and every behaviour examined
here (small integer literals and readings, the explicit division-by-zero
check) is exact, so rational arithmetic coincides with it on all inputs
considered.
-/

deriving instance DecidableEq for Except

namespace FormulaEngine

/-- Modelled from the spec (section 3, AST node): the four binary operators. -/
inductive BinOp
  | add
  | subtract
  | multiply
  | divide
  deriving DecidableEq

/-- Modelled from the spec (section 3, AST node): the closed variant set of
expression nodes.  `numberLiteral` holds a constant, `componentRef` an integer
component id resolved at evaluation time, `unaryNeg` the single unary operator,
`binaryOp` a binary application. -/
inductive Expr
  | numberLiteral (value : ℚ)
  | componentRef (id : ℕ)
  | unaryNeg (operand : Expr)
  | binaryOp (op : BinOp) (left : Expr) (right : Expr)
  deriving DecidableEq

/-- Modelled from the spec (section 3, Token): the transient token vocabulary
produced by the lexer.  The end-of-input marker of the spec is represented by
the end of the Lean list. -/
inductive Token
  | number (value : ℚ)
  | componentMarker (id : ℕ)
  | plus
  | minus
  | star
  | slash
  | lparen
  | rparen
  deriving DecidableEq

/-- Modelled from the spec (section 7): lexer failures, naming the offending
character and its position. -/
inductive LexError
  | badChar (c : Char) (pos : ℕ)
  | badMarker (pos : ℕ)
  deriving DecidableEq

/-- Modelled from the spec (sections 4.2 and 7): parser failures, carrying the
input position (index of the offending token). -/
inductive ParseError
  | unexpectedToken (pos : ℕ)
  | unmatchedParen (pos : ℕ)
  | trailingTokens (pos : ℕ)
  | emptyInput
  deriving DecidableEq

/-- Modelled from the spec (section 7): evaluation failures. -/
inductive EvalError
  | missingComponent (id : ℕ)
  | divisionByZero
  deriving DecidableEq

/-- Modelled from the spec (sections 4.5 and 7): a construction failure is the
first lexer or parser failure encountered. -/
inductive ConstructError
  | lex (e : LexError)
  | parse (e : ParseError)
  deriving DecidableEq

/-- Exact rational addition written through the raw constructor `Rat.divInt`
so that concrete runs reduce; `ratAdd_eq_add` below proves it is the field
addition of `ℚ`. -/
def ratAdd (a b : ℚ) : ℚ :=
  Rat.divInt (a.num * b.den + b.num * a.den) (a.den * b.den)

/-- Exact rational subtraction through `Rat.divInt`; equal to field
subtraction by `ratSub_eq_sub` below. -/
def ratSub (a b : ℚ) : ℚ :=
  Rat.divInt (a.num * b.den - b.num * a.den) (a.den * b.den)

/-- Exact rational multiplication through `Rat.divInt`; equal to field
multiplication by `ratMul_eq_mul` below. -/
def ratMul (a b : ℚ) : ℚ :=
  Rat.divInt (a.num * b.num) (a.den * b.den)

/-- Exact rational division through `Rat.divInt`; equal to field division by
`ratDiv_eq_div` below (the evaluator only applies it to a nonzero divisor). -/
def ratDiv (a b : ℚ) : ℚ :=
  Rat.divInt (a.num * b.den) (a.den * b.num)

/-- Exact rational negation through `Rat.divInt`; equal to field negation by
`ratNeg_eq_neg` below. -/
def ratNeg (a : ℚ) : ℚ :=
  Rat.divInt (-a.num) a.den

/-- Numeric value of a digit string, most significant digit first. -/
def digitsToNat (ds : List Char) : ℕ :=
  ds.foldl (fun acc c => 10 * acc + (c.toNat - 48)) 0

/-- Value of a numeric literal with integer part and (possibly empty)
fractional part. -/
def numberValue (intPart fracPart : List Char) : ℚ :=
  Rat.divInt
    (digitsToNat intPart * 10 ^ fracPart.length + digitsToNat fracPart)
    (10 ^ fracPart.length)

/-- Modelled from the spec (section 4.1): the lexer worker.  It recognizes
numeric literals (digit sequence with an optional single decimal point),
component markers (a hash immediately followed by one or more digits; a hash
with no following digit fails), the four operator symbols, parentheses, and
discards whitespace; any other character fails.  The first argument is fuel;
every recursive call consumes at least one character, and the top-level entry
supplies more fuel than the input length, so the fuel-exhausted branch is
never reached from `tokenize`. -/
def tokenizeAux : ℕ → ℕ → List Char → Except LexError (List Token)
  | _, _, [] => .ok []
  | 0, pos, _ :: _ => .error (.badChar ' ' pos)
  | fuel + 1, pos, c :: cs =>
    if c = ' ' then
      tokenizeAux fuel (pos + 1) cs
    else if c.isDigit then
      let intPart := List.takeWhile Char.isDigit (c :: cs)
      let rest := List.dropWhile Char.isDigit (c :: cs)
      match rest with
      | '.' :: d :: r2 =>
        if d.isDigit then
          let fracPart := List.takeWhile Char.isDigit (d :: r2)
          let r3 := List.dropWhile Char.isDigit (d :: r2)
          (tokenizeAux fuel (pos + intPart.length + 1 + fracPart.length) r3).map
            (fun ts => Token.number (numberValue intPart fracPart) :: ts)
        else
          (tokenizeAux fuel (pos + intPart.length) rest).map
            (fun ts => Token.number (numberValue intPart []) :: ts)
      | _ =>
        (tokenizeAux fuel (pos + intPart.length) rest).map
          (fun ts => Token.number (numberValue intPart []) :: ts)
    else if c = '#' then
      match cs with
      | d :: _ =>
        if d.isDigit then
          let ds := List.takeWhile Char.isDigit cs
          let r3 := List.dropWhile Char.isDigit cs
          (tokenizeAux fuel (pos + 1 + ds.length) r3).map
            (fun ts => Token.componentMarker (digitsToNat ds) :: ts)
        else .error (.badMarker pos)
      | [] => .error (.badMarker pos)
    else if c = '+' then
      (tokenizeAux fuel (pos + 1) cs).map (fun ts => Token.plus :: ts)
    else if c = '-' then
      (tokenizeAux fuel (pos + 1) cs).map (fun ts => Token.minus :: ts)
    else if c = '*' then
      (tokenizeAux fuel (pos + 1) cs).map (fun ts => Token.star :: ts)
    else if c = '/' then
      (tokenizeAux fuel (pos + 1) cs).map (fun ts => Token.slash :: ts)
    else if c = '(' then
      (tokenizeAux fuel (pos + 1) cs).map (fun ts => Token.lparen :: ts)
    else if c = ')' then
      (tokenizeAux fuel (pos + 1) cs).map (fun ts => Token.rparen :: ts)
    else .error (.badChar c pos)

/-- Modelled from the spec (section 4.1): `tokenize(text)` produces the token
sequence or the first lexer failure. -/
def tokenize (text : String) : Except LexError (List Token) :=
  tokenizeAux (text.length + 1) 0 text.data

/-- The syntactic category the precedence-climbing parser is currently
working on: one of the grammar productions of the spec (section 4.2), or the
left-associative folding state of a production's operator tail, carrying the
left operand parsed so far. -/
inductive Prod4
  | expr
  | exprTail (l : Expr)
  | term
  | termTail (l : Expr)
  | factor
  | primary

/-- Modelled from the spec (section 4.2): the precedence-climbing parser over
the grammar

`expr := term (('+' | '-') term)*`,
`term := factor (('*' | '/') factor)*`,
`factor := '-' factor | primary`,
`primary := NUMBER | COMPONENT | '(' expr ')'`.

One fuel-indexed worker covers the mutually recursive productions, selected by
the `Prod4` argument; the `exprTail` and `termTail` states fold the operator
tails left-associatively.  It takes the remaining tokens and the position of
the next token, and returns the parsed node, the unconsumed tokens and the new
position.  A component marker becomes a `componentRef` leaf directly; a token
that cannot start a primary fails, as does a parenthesized expression without
its closing parenthesis.  The fuel decreases at every call and the top-level
entry supplies more than the recursion ever needs, so the exhausted branch is
never reached from `parseAll`. -/
def parseCat : ℕ → Prod4 → List Token → ℕ → Except ParseError (Expr × List Token × ℕ)
  | 0, _, _, pos => .error (.unexpectedToken pos)
  | fuel + 1, .expr, ts, pos => do
    let (l, ts1, pos1) ← parseCat fuel .term ts pos
    parseCat fuel (.exprTail l) ts1 pos1
  | fuel + 1, .exprTail l, Token.plus :: rest, pos => do
    let (r, ts1, pos1) ← parseCat fuel .term rest (pos + 1)
    parseCat fuel (.exprTail (.binaryOp .add l r)) ts1 pos1
  | fuel + 1, .exprTail l, Token.minus :: rest, pos => do
    let (r, ts1, pos1) ← parseCat fuel .term rest (pos + 1)
    parseCat fuel (.exprTail (.binaryOp .subtract l r)) ts1 pos1
  | _ + 1, .exprTail l, ts, pos => .ok (l, ts, pos)
  | fuel + 1, .term, ts, pos => do
    let (l, ts1, pos1) ← parseCat fuel .factor ts pos
    parseCat fuel (.termTail l) ts1 pos1
  | fuel + 1, .termTail l, Token.star :: rest, pos => do
    let (r, ts1, pos1) ← parseCat fuel .factor rest (pos + 1)
    parseCat fuel (.termTail (.binaryOp .multiply l r)) ts1 pos1
  | fuel + 1, .termTail l, Token.slash :: rest, pos => do
    let (r, ts1, pos1) ← parseCat fuel .factor rest (pos + 1)
    parseCat fuel (.termTail (.binaryOp .divide l r)) ts1 pos1
  | _ + 1, .termTail l, ts, pos => .ok (l, ts, pos)
  | fuel + 1, .factor, Token.minus :: rest, pos => do
    let (x, ts1, pos1) ← parseCat fuel .factor rest (pos + 1)
    .ok (.unaryNeg x, ts1, pos1)
  | fuel + 1, .factor, ts, pos => parseCat fuel .primary ts pos
  | _ + 1, .primary, Token.number v :: rest, pos => .ok (.numberLiteral v, rest, pos + 1)
  | _ + 1, .primary, Token.componentMarker id :: rest, pos =>
    .ok (.componentRef id, rest, pos + 1)
  | fuel + 1, .primary, Token.lparen :: rest, pos => do
    let (e, ts1, pos1) ← parseCat fuel .expr rest (pos + 1)
    match ts1 with
    | Token.rparen :: ts2 => .ok (e, ts2, pos1 + 1)
    | _ => .error (.unmatchedParen pos1)
  | _ + 1, .primary, _, pos => .error (.unexpectedToken pos)

/-- Modelled from the spec (section 4.2): `parse(tokens)` parses a complete
expression: empty input fails, trailing tokens after a complete expression
fail, and parsing is all-or-nothing.  The fuel handed to the workers exceeds
every possible recursion depth for the given token count. -/
def parseAll (ts : List Token) : Except ParseError Expr :=
  match ts with
  | [] => .error .emptyInput
  | _ =>
    match parseCat (ts.length * 4 + 4) .expr ts 0 with
    | .error e => .error e
    | .ok (e, [], _) => .ok e
    | .ok (_, _ :: _, pos) => .error (.trailingTokens pos)

/-- One step of first-occurrence accumulation: append `id` unless already
recorded. -/
def insertId (acc : List ℕ) (id : ℕ) : List ℕ :=
  if id ∈ acc then acc else acc ++ [id]

/-- Modelled from the spec (section 4.3): single pre-order left-to-right
traversal accumulating each component id the first time it is encountered. -/
def extractAux (acc : List ℕ) : Expr → List ℕ
  | .numberLiteral _ => acc
  | .componentRef id => insertId acc id
  | .unaryNeg x => extractAux acc x
  | .binaryOp _ l r => extractAux (extractAux acc l) r

/-- Modelled from the spec (section 4.3): `extract(ast)`, the ordered
de-duplicated component id list. -/
def extract (ast : Expr) : List ℕ :=
  extractAux [] ast

/-- All component ids of an AST in pre-order, left to right, with
multiplicity (the reference sequence the extractor de-duplicates). -/
def componentRefs : Expr → List ℕ
  | .numberLiteral _ => []
  | .componentRef id => [id]
  | .unaryNeg x => componentRefs x
  | .binaryOp _ l r => componentRefs l ++ componentRefs r

/-- First-occurrence de-duplication of a list, stated independently of the
AST: fold `insertId` from the left starting empty. -/
def firstOccurrences (ids : List ℕ) : List ℕ :=
  ids.foldl insertId []

/-- Modelled from the spec (section 4.4): application of a binary operator;
division by an operand equal to zero fails. -/
def applyBinOp (op : BinOp) (l r : ℚ) : Except EvalError ℚ :=
  match op with
  | .add => .ok (ratAdd l r)
  | .subtract => .ok (ratSub l r)
  | .multiply => .ok (ratMul l r)
  | .divide => if r = 0 then .error .divisionByZero else .ok (ratDiv l r)

/-- Modelled from the spec (section 4.4): the recursive tree-walk evaluator.
A component reference resolves through the supplied mapping and fails when the
id is absent; a binary node evaluates its left operand before its right. -/
def evaluate (values : ℕ → Option ℚ) : Expr → Except EvalError ℚ
  | .numberLiteral v => .ok v
  | .componentRef id =>
    match values id with
    | some v => .ok v
    | none => .error (.missingComponent id)
  | .unaryNeg x =>
    match evaluate values x with
    | .error e => .error e
    | .ok v => .ok (ratNeg v)
  | .binaryOp op l r =>
    match evaluate values l with
    | .error e => .error e
    | .ok lv =>
      match evaluate values r with
      | .error e => .error e
      | .ok rv => applyBinOp op lv rv

/-- Modelled from the spec (section 3): the formula handle bundling source
text, AST and the memoized component id list. -/
structure Formula where
  source : String
  ast : Expr
  component_ids : List ℕ
  deriving DecidableEq

/-- Modelled from the spec (section 4.5): construction drives lexer, parser
and component extractor in sequence, surfacing the first failure. -/
def construct (text : String) : Except ConstructError Formula :=
  match tokenize text with
  | .error e => .error (.lex e)
  | .ok toks =>
    match parseAll toks with
    | .error e => .error (.parse e)
    | .ok ast => .ok { source := text, ast := ast, component_ids := extract ast }

/-- Modelled from the spec (section 4.5): `components()` returns the cached
list with no recomputation. -/
def Formula.components (f : Formula) : List ℕ :=
  f.component_ids

/-- Modelled from the spec (section 4.5): `evaluate(values)` delegates to the
evaluator against the cached AST. -/
def Formula.evaluate (f : Formula) (values : ℕ → Option ℚ) : Except EvalError ℚ :=
  FormulaEngine.evaluate values f.ast

/-- A value mapping built from an explicit association list. -/
def valueMap (entries : List (ℕ × ℚ)) : ℕ → Option ℚ :=
  fun id => (entries.find? (fun p => p.1 == id)).map Prod.snd

/-- Modelled from the spec (sections 3 and 4.4): one evaluation call as the
caller observes it, returning the result together with the handle as it
stands after the call; the handle is immutable, so it is returned unchanged. -/
def calculateCall (f : Formula) (values : ℕ → Option ℚ) : Except EvalError ℚ × Formula :=
  (f.evaluate values, f)

/-- From the package module of the Python binding (under src): the export
list names exactly one public name, the class FormulaEngine. -/
def moduleAll : List String :=
  ["FormulaEngine"]

/-- Modelled from the spec (section 4.5) and the binding tests: the Python
class FormulaEngine is constructed directly from the formula text and wraps
the Formula handle; a construction failure surfaces as the error side. -/
def formulaEngineOfText (text : String) : Except ConstructError Formula :=
  construct text

/-- Modelled from the binding tests: the evaluation method of the Python
class is named calculate and performs the evaluation the spec specifies for
the Formula handle. -/
def calculate (f : Formula) (values : ℕ → Option ℚ) : Except EvalError ℚ :=
  f.evaluate values

/-- The handle produced by constructing the text with two number literals. -/
def exampleFormulaPlain : Formula :=
  { source := "1 + 2"
    ast := .binaryOp .add (.numberLiteral 1) (.numberLiteral 2)
    component_ids := [] }

/-- A handle with the same AST as `exampleFormulaPlain` but different source
text. -/
def exampleFormulaParen : Formula :=
  { source := "(1 + 2)"
    ast := .binaryOp .add (.numberLiteral 1) (.numberLiteral 2)
    component_ids := [] }

/-- The handle produced by constructing the text adding components 1 and 2. -/
def exampleFormulaRefs : Formula :=
  { source := "#1 + #2"
    ast := .binaryOp .add (.componentRef 1) (.componentRef 2)
    component_ids := [1, 2] }

end FormulaEngine

namespace FormulaEngine

/-- The engine addition is the field addition of `ℚ`. -/
lemma ratAdd_eq_add (a b : ℚ) : ratAdd a b = a + b := by
  have ha : (a.den : ℚ) ≠ 0 := by exact_mod_cast a.den_nz
  have hb : (b.den : ℚ) ≠ 0 := by exact_mod_cast b.den_nz
  rw [ratAdd, Rat.divInt_eq_div]
  conv_rhs => rw [← Rat.num_div_den a, ← Rat.num_div_den b]
  rw [div_add_div _ _ ha hb]
  push_cast
  ring_nf

/-- The engine subtraction is the field subtraction of `ℚ`. -/
lemma ratSub_eq_sub (a b : ℚ) : ratSub a b = a - b := by
  have ha : (a.den : ℚ) ≠ 0 := by exact_mod_cast a.den_nz
  have hb : (b.den : ℚ) ≠ 0 := by exact_mod_cast b.den_nz
  rw [ratSub, Rat.divInt_eq_div]
  conv_rhs => rw [← Rat.num_div_den a, ← Rat.num_div_den b]
  rw [div_sub_div _ _ ha hb]
  push_cast
  ring_nf

/-- The engine multiplication is the field multiplication of `ℚ`. -/
lemma ratMul_eq_mul (a b : ℚ) : ratMul a b = a * b := by
  rw [ratMul, Rat.divInt_eq_div]
  conv_rhs => rw [← Rat.num_div_den a, ← Rat.num_div_den b]
  push_cast
  field_simp

/-- The engine division is the field division of `ℚ`. -/
lemma ratDiv_eq_div (a b : ℚ) : ratDiv a b = a / b := by
  rw [ratDiv, Rat.divInt_eq_div]
  conv_rhs => rw [← Rat.num_div_den a, ← Rat.num_div_den b]
  rw [div_div_eq_mul_div, div_mul_eq_mul_div, div_div]
  push_cast
  ring_nf

/-- The engine negation is the field negation of `ℚ`. -/
lemma ratNeg_eq_neg (a : ℚ) : ratNeg a = -a := by
  rw [ratNeg, Rat.divInt_eq_div]
  conv_rhs => rw [← Rat.num_div_den a]
  push_cast
  ring_nf

/-- Membership in one `insertId` step. -/
lemma mem_insertId (acc : List ℕ) (x a : ℕ) : a ∈ insertId acc x ↔ a ∈ acc ∨ a = x := by
  by_cases hx : x ∈ acc
  · rw [insertId, if_pos hx]
    constructor
    · exact fun h => Or.inl h
    · rintro (h | rfl)
      · exact h
      · exact hx
  · rw [insertId, if_neg hx]
    simp [List.mem_append]

/-- Membership in a left fold of `insertId`. -/
lemma mem_foldl_insertId (l : List ℕ) :
    ∀ (acc : List ℕ) (a : ℕ), a ∈ l.foldl insertId acc ↔ a ∈ acc ∨ a ∈ l := by
  induction l with
  | nil => intro acc a; simp
  | cons x xs ih =>
    intro acc a
    rw [List.foldl_cons, ih, mem_insertId]
    simp [List.mem_cons]
    tauto

/-- One `insertId` step preserves `Nodup`. -/
lemma nodup_insertId (acc : List ℕ) (x : ℕ) (h : acc.Nodup) : (insertId acc x).Nodup := by
  by_cases hx : x ∈ acc
  · rwa [insertId, if_pos hx]
  · rw [insertId, if_neg hx]
    refine List.Nodup.append h (List.nodup_singleton x) ?_
    intro a ha hax
    exact hx ((List.mem_singleton.mp hax) ▸ ha)

/-- A left fold of `insertId` preserves `Nodup`. -/
lemma nodup_foldl_insertId (l : List ℕ) :
    ∀ acc : List ℕ, acc.Nodup → (l.foldl insertId acc).Nodup := by
  induction l with
  | nil => intro acc h; simpa
  | cons x xs ih =>
    intro acc h
    rw [List.foldl_cons]
    exact ih _ (nodup_insertId _ _ h)

/-- The extractor traversal is the left fold of `insertId` over the pre-order
reference list. -/
lemma extractAux_eq_foldl (e : Expr) :
    ∀ acc : List ℕ, extractAux acc e = (componentRefs e).foldl insertId acc := by
  induction e with
  | numberLiteral v => intro acc; rfl
  | componentRef id => intro acc; rfl
  | unaryNeg x ih => intro acc; simp [extractAux, componentRefs, ih]
  | binaryOp op l r ihl ihr =>
    intro acc
    simp [extractAux, componentRefs, List.foldl_append, ihl, ihr]

/-- A successful evaluation means every component id referenced by the AST is
present in the supplied mapping. -/
lemma eval_ok_refs_present (values : ℕ → Option ℚ) :
    ∀ (e : Expr) (v : ℚ), evaluate values e = .ok v →
      ∀ k, k ∈ componentRefs e → values k ≠ none := by
  intro e
  induction e with
  | numberLiteral w =>
    intro v _ k hk
    simp [componentRefs] at hk
  | componentRef id =>
    intro v hv k hk
    simp only [componentRefs, List.mem_singleton] at hk
    subst hk
    intro hnone
    simp [evaluate, hnone] at hv
  | unaryNeg x ih =>
    intro v hv k hk
    simp only [evaluate] at hv
    simp only [componentRefs] at hk
    cases hx : evaluate values x with
    | error e => rw [hx] at hv; simp at hv
    | ok w => exact ih w hx k hk
  | binaryOp op l r ihl ihr =>
    intro v hv k hk
    simp only [evaluate] at hv
    simp only [componentRefs, List.mem_append] at hk
    cases hl : evaluate values l with
    | error e => rw [hl] at hv; simp at hv
    | ok lv =>
      rw [hl] at hv
      cases hr : evaluate values r with
      | error e => rw [hr] at hv; simp at hv
      | ok rv =>
        rcases hk with hk | hk
        · exact ihl lv hl k hk
        · exact ihr rv hr k hk

/-- Every evaluation error is either a division by zero or a missing
component whose id is referenced by the AST and absent from the mapping. -/
lemma eval_error_shape (values : ℕ → Option ℚ) :
    ∀ (e : Expr) (err : EvalError), evaluate values e = .error err →
      err = .divisionByZero ∨
        ∃ j, err = .missingComponent j ∧ values j = none ∧ j ∈ componentRefs e := by
  intro e
  induction e with
  | numberLiteral v =>
    intro err h
    simp [evaluate] at h
  | componentRef id =>
    intro err h
    cases hid : values id with
    | some w => simp [evaluate, hid] at h
    | none =>
      simp only [evaluate, hid, Except.error.injEq] at h
      exact Or.inr ⟨id, h.symm, hid, by simp [componentRefs]⟩
  | unaryNeg x ih =>
    intro err h
    simp only [evaluate] at h
    cases hx : evaluate values x with
    | error e =>
      rw [hx] at h
      simp only [Except.error.injEq] at h
      rw [← h]
      simpa [componentRefs] using ih e hx
    | ok w => rw [hx] at h; simp at h
  | binaryOp op l r ihl ihr =>
    intro err h
    simp only [evaluate] at h
    cases hl : evaluate values l with
    | error e =>
      rw [hl] at h
      simp only [Except.error.injEq] at h
      rw [← h]
      rcases ihl e hl with h1 | ⟨j, hj, hvj, hmem⟩
      · exact Or.inl h1
      · exact Or.inr ⟨j, hj, hvj, by simp [componentRefs, hmem]⟩
    | ok lv =>
      rw [hl] at h
      cases hr : evaluate values r with
      | error e =>
        rw [hr] at h
        simp only [Except.error.injEq] at h
        rw [← h]
        rcases ihr e hr with h1 | ⟨j, hj, hvj, hmem⟩
        · exact Or.inl h1
        · exact Or.inr ⟨j, hj, hvj, by simp [componentRefs, hmem]⟩
      | ok rv =>
        rw [hr] at h
        cases op with
        | add => simp [applyBinOp] at h
        | subtract => simp [applyBinOp] at h
        | multiply => simp [applyBinOp] at h
        | divide =>
          simp only [applyBinOp] at h
          split at h
          · simp only [Except.error.injEq] at h
            exact Or.inl h.symm
          · simp at h

end FormulaEngine

namespace FormulaEngine

/-- C1: for the formula text with a literal plus component 2 ("1 + #2"):
after construction, components() returns exactly [2]; evaluating with the
mapping sending 2 to 3 returns 4; and a second evaluation with the same
mapping, performed on the handle as it stands after the first call, also
returns 4. -/
theorem c1_components_evaluate_reuse :
    (construct ("1 + #2")).map Formula.components = .ok [2] ∧
    (construct ("1 + #2")).map (fun f => (calculateCall f (valueMap [(2, 3)])).1) =
      .ok (.ok 4) ∧
    (construct ("1 + #2")).map (fun f =>
      (calculateCall ((calculateCall f (valueMap [(2, 3)])).2) (valueMap [(2, 3)])).1) =
      .ok (.ok 4) := by
  decide

/-- C2 counterexample: the constructed formula for "#1 + #2" has a
componentRef with id 2 in its AST, the empty mapping lacks key 2, yet
evaluation fails with MissingComponent 1, not MissingComponent 2 — the
claim as stated fails when another referenced id is also missing and is
reached first. -/
theorem c2_counterexample :
    (construct ("#1 + #2")).map
        (fun f => ((componentRefs f.ast).contains 2, f.evaluate (valueMap []))) =
      .ok (true, .error (.missingComponent 1)) ∧
    valueMap [] 2 = none ∧
    EvalError.missingComponent 1 ≠ EvalError.missingComponent 2 := by
  decide

/-- C2 (amended): evaluating a Formula whose AST references id k against a
mapping lacking key k never succeeds and never substitutes a default: it
fails with an evaluation error, either MissingComponent j for some
referenced id j absent from the mapping (j = k when k is the first such id
reached), or a DivisionByZero raised before the missing reference is
reached.  In particular the spec scenario holds: "#1 + #2" evaluated with
only id 1 supplied fails with MissingComponent 2. -/
theorem c2_missing_value_never_defaults :
    (∀ (f : Formula) (values : ℕ → Option ℚ) (k : ℕ),
      k ∈ componentRefs f.ast → values k = none →
      ∃ err, f.evaluate values = .error err ∧
        (err = .divisionByZero ∨
          ∃ j, err = .missingComponent j ∧ values j = none ∧ j ∈ componentRefs f.ast)) ∧
    (construct ("#1 + #2")).map (fun f => f.evaluate (valueMap [(1, 3)])) =
      .ok (.error (.missingComponent 2)) := by
  constructor
  · intro f values k hk hv
    cases h : f.evaluate values with
    | ok v => exact absurd hv (eval_ok_refs_present values f.ast v h k hk)
    | error err => exact ⟨err, rfl, eval_error_shape values f.ast err h⟩
  · decide

/-- Witness instantiating the amended C2 theorem on "#1 + #2" with only id 1
supplied. -/
theorem c2_missing_value_never_defaults_witness :
    2 ∈ componentRefs exampleFormulaRefs.ast ∧
    valueMap [(1, 3)] 2 = none ∧
    (∃ err, exampleFormulaRefs.evaluate (valueMap [(1, 3)]) = .error err ∧
      (err = .divisionByZero ∨
        ∃ j, err = .missingComponent j ∧ valueMap [(1, 3)] j = none ∧
          j ∈ componentRefs exampleFormulaRefs.ast)) :=
  ⟨by decide, rfl,
    c2_missing_value_never_defaults.1 exampleFormulaRefs (valueMap [(1, 3)]) 2 (by decide) rfl⟩

/-- C3: a division whose right operand evaluates to exactly zero makes the
evaluation fail with DivisionByZero; a division node only succeeds when the
divisor is nonzero, and then its value is the exact field quotient (never an
infinity or NaN); and the spec scenario "#1 / #2" with 1 mapped to 4 and 2
mapped to 0 fails with DivisionByZero. -/
theorem c3_division_by_zero_exact :
    (∀ (values : ℕ → Option ℚ) (l r : Expr) (x : ℚ),
      evaluate values l = .ok x → evaluate values r = .ok 0 →
      evaluate values (.binaryOp .divide l r) = .error .divisionByZero) ∧
    (∀ (values : ℕ → Option ℚ) (l r : Expr) (v : ℚ),
      evaluate values (.binaryOp .divide l r) = .ok v →
      ∃ x y, evaluate values l = .ok x ∧ evaluate values r = .ok y ∧ y ≠ 0 ∧ v = x / y) ∧
    (construct ("#1 / #2")).map (fun f => f.evaluate (valueMap [(1, 4), (2, 0)])) =
      .ok (.error .divisionByZero) := by
  refine ⟨?_, ?_, by decide⟩
  · intro values l r x hl hr
    simp only [evaluate, hl, hr]
    simp [applyBinOp]
  · intro values l r v h
    simp only [evaluate] at h
    cases hl : evaluate values l with
    | error e => rw [hl] at h; simp at h
    | ok x =>
      rw [hl] at h
      cases hr : evaluate values r with
      | error e => rw [hr] at h; simp at h
      | ok y =>
        rw [hr] at h
        simp only [applyBinOp] at h
        split at h
        · simp at h
        · rename_i hy
          simp only [Except.ok.injEq] at h
          exact ⟨x, y, rfl, rfl, hy, by rw [← h, ratDiv_eq_div]⟩

/-- Witness instantiating the C3 theorem on the division of the literal 4 by
the literal 0. -/
theorem c3_division_by_zero_exact_witness :
    evaluate (valueMap []) (.binaryOp .divide (.numberLiteral 4) (.numberLiteral 0)) =
      .error .divisionByZero :=
  c3_division_by_zero_exact.1 (valueMap []) (.numberLiteral 4) (.numberLiteral 0) 4 rfl rfl

/-- C4: multiply binds tighter than add, subtraction is left-associative:
"2 + 3 * 4" evaluates to 14 and not 20, "10 - 2 - 3" evaluates to 5 and not
11, and "1 - 2 - 3" parses as "(1 - 2) - 3". -/
theorem c4_precedence_associativity :
    (construct ("2 + 3 * 4")).map (fun f => f.evaluate (valueMap [])) = .ok (.ok 14) ∧
    (construct ("10 - 2 - 3")).map (fun f => f.evaluate (valueMap [])) = .ok (.ok 5) ∧
    (construct ("1 - 2 - 3")).map Formula.ast =
      .ok (.binaryOp .subtract
            (.binaryOp .subtract (.numberLiteral 1) (.numberLiteral 2))
            (.numberLiteral 3)) ∧
    (14 : ℚ) ≠ 20 ∧ (5 : ℚ) ≠ 11 := by
  decide

/-- C5: for every AST, components() is the first-occurrence de-duplication
of the pre-order (left-to-right) reference sequence; it has no duplicates;
its members are exactly the referenced ids; and components() of
"#1 + #2 * #1" is [1, 2]. -/
theorem c5_components_complete_ordered :
    (∀ ast : Expr, extract ast = firstOccurrences (componentRefs ast)) ∧
    (∀ ast : Expr, (extract ast).Nodup) ∧
    (∀ (ast : Expr) (id : ℕ), id ∈ extract ast ↔ id ∈ componentRefs ast) ∧
    (construct ("#1 + #2 * #1")).map Formula.components = .ok [1, 2] := by
  have hfold : ∀ ast : Expr, extract ast = (componentRefs ast).foldl insertId [] :=
    fun ast => extractAux_eq_foldl ast []
  refine ⟨?_, ?_, ?_, by decide⟩
  · intro ast
    rw [hfold]
    rfl
  · intro ast
    rw [hfold]
    exact nodup_foldl_insertId _ _ List.nodup_nil
  · intro ast id
    rw [hfold, mem_foldl_insertId]
    simp

/-- C6: evaluation is pure: a repeated call on the handle returned by a
previous call gives the same result as the first call; the result depends
only on the AST and the supplied mapping, not on the rest of the handle; and
on "1 + #2" with 2 mapped to 3 both the first and second calls return 4. -/
theorem c6_evaluation_pure :
    (∀ (f : Formula) (values : ℕ → Option ℚ),
      (calculateCall ((calculateCall f values).2) values).1 = (calculateCall f values).1) ∧
    (∀ (f g : Formula) (values : ℕ → Option ℚ),
      f.ast = g.ast → f.evaluate values = g.evaluate values) ∧
    (construct ("1 + #2")).map (fun f =>
        ((calculateCall f (valueMap [(2, 3)])).1,
          (calculateCall ((calculateCall f (valueMap [(2, 3)])).2) (valueMap [(2, 3)])).1)) =
      .ok (.ok 4, .ok 4) := by
  refine ⟨fun f values => rfl, ?_, by decide⟩
  intro f g values h
  simp only [Formula.evaluate, h]

/-- Witness instantiating the C6 theorem on two handles sharing an AST but
differing in source text. -/
theorem c6_evaluation_pure_witness :
    exampleFormulaPlain.evaluate (valueMap []) = exampleFormulaParen.evaluate (valueMap []) :=
  c6_evaluation_pure.2.1 exampleFormulaPlain exampleFormulaParen (valueMap []) rfl

/-- C7: construction is all-or-nothing: the incomplete text "1 + " fails
with a parse error (a primary was expected at the end), the empty text fails
with the empty-input parse error, and every successfully constructed Formula
carries exactly the AST of a complete lex-and-parse of its source text
together with the memoized extraction of that AST — no partial AST is ever
exposed. -/
theorem c7_construction_all_or_nothing :
    construct ("1 + ") = .error (.parse (.unexpectedToken 2)) ∧
    construct ("") = .error (.parse .emptyInput) ∧
    (∀ (t : String) (f : Formula), construct t = .ok f →
      ∃ toks, tokenize t = .ok toks ∧ parseAll toks = .ok f.ast ∧
        f.component_ids = extract f.ast ∧ f.source = t) := by
  refine ⟨by decide, by decide, ?_⟩
  intro t f h
  cases htok : tokenize t with
  | error e => simp [construct, htok] at h
  | ok toks =>
    cases hp : parseAll toks with
    | error e => simp [construct, htok, hp] at h
    | ok ast =>
      simp only [construct, htok, hp, Except.ok.injEq] at h
      subst h
      exact ⟨toks, rfl, hp, rfl, rfl⟩

/-- Witness instantiating the C7 theorem on the successful construction of
the text with two number literals. -/
theorem c7_construction_all_or_nothing_witness :
    ∃ toks, tokenize ("1 + 2") = .ok toks ∧ parseAll toks = .ok exampleFormulaPlain.ast ∧
      exampleFormulaPlain.component_ids = extract exampleFormulaPlain.ast ∧
      exampleFormulaPlain.source = "1 + 2" :=
  c7_construction_all_or_nothing.2.2 ("1 + 2") exampleFormulaPlain (by decide)

/-- C8: a failed evaluation call leaves the handle unchanged — same handle,
same source, same AST, same component list — and a subsequent call with any
other mapping returns exactly what a fresh call on the original handle
returns. -/
theorem c8_eval_error_frame (f : Formula) (v1 v2 : ℕ → Option ℚ) (err : EvalError)
    (h : (calculateCall f v1).1 = .error err) :
    (calculateCall f v1).2 = f ∧
    ((calculateCall f v1).2).source = f.source ∧
    ((calculateCall f v1).2).ast = f.ast ∧
    ((calculateCall f v1).2).components = f.components ∧
    (calculateCall ((calculateCall f v1).2) v2).1 = (calculateCall f v2).1 :=
  ⟨rfl, rfl, rfl, rfl, rfl⟩

/-- Witness instantiating the C8 theorem: "#1 + #2" first evaluated with the
empty mapping (failing with MissingComponent 1), then with a complete
mapping. -/
theorem c8_eval_error_frame_witness :
    (calculateCall exampleFormulaRefs (valueMap [])).2 = exampleFormulaRefs ∧
    ((calculateCall exampleFormulaRefs (valueMap [])).2).source = exampleFormulaRefs.source ∧
    ((calculateCall exampleFormulaRefs (valueMap [])).2).ast = exampleFormulaRefs.ast ∧
    ((calculateCall exampleFormulaRefs (valueMap [])).2).components =
      exampleFormulaRefs.components ∧
    (calculateCall ((calculateCall exampleFormulaRefs (valueMap [])).2)
        (valueMap [(1, 3), (2, 1)])).1 =
      (calculateCall exampleFormulaRefs (valueMap [(1, 3), (2, 1)])).1 :=
  c8_eval_error_frame exampleFormulaRefs (valueMap []) (valueMap [(1, 3), (2, 1)])
    (.missingComponent 1) (by decide)

/-- C9: the formula text with two number literals ("1 + 2") references no
components: components() is empty and evaluation with the empty mapping
returns 3. -/
theorem c9_constant_formula :
    (construct ("1 + 2")).map Formula.components = .ok [] ∧
    (construct ("1 + 2")).map (fun f => f.evaluate (valueMap [])) = .ok (.ok 3) := by
  decide

/-- C10: the Python package exports exactly one name, FormulaEngine; its
evaluation method calculate performs, for every text and mapping, exactly
the evaluation the spec specifies for the Formula handle; and the two test
scenarios hold through calculate. -/
theorem c10_python_surface :
    moduleAll = ["FormulaEngine"] ∧
    moduleAll.length = 1 ∧
    (∀ (t : String) (values : ℕ → Option ℚ),
      (formulaEngineOfText t).map (fun f => calculate f values) =
        (construct t).map (fun f => f.evaluate values)) ∧
    (construct ("1 + 2")).map (fun f => calculate f (valueMap [])) = .ok (.ok 3) ∧
    (construct ("1 + #2")).map (fun f => calculate f (valueMap [(2, 3)])) = .ok (.ok 4) := by
  exact ⟨rfl, rfl, fun t values => rfl, by decide, by decide⟩

end FormulaEngine
